import Mathlib

/-!
Shallow embedding of the per-view editing-state engine of the Hyperion
editor (mikofure/hyperion-editor): Range, Style/FontSpecification, KeyMap,
and the EditModel/ModelState selection-undo machinery.

Translation conventions:
* `Sci::Position` and `Sci::Line` (both `ptrdiff_t`) are modelled as `Int`.
* `std::map<int, V>` is modelled as `Int → Option V`; ordered-iterator
  operations such as `erase(find(i), end())` are modelled by their effect on
  the key set (a `std::map` is sorted by key, so erasing from the iterator
  returned by `find(i)` to `end()` removes every key `≥ i` when `i` is
  present, and nothing at all when `find` returns `end()`).
* `const char *` font names interned by a ViewStyle are modelled as `Int`
  identifiers; C++ pointer comparison becomes `Int` comparison.
* C++ enum classes that the claims only compare numerically are modelled as
  `Int` with named constants; those matched on are inductive types.
-/

namespace Hyperion

-- Positions and lines (Sci::Position, Sci::Line) are Int.


/-- Source `Sci::invalidPosition`. -/
def invalidPosition : Int := -1

/-! ## Range (src/native/core/Range.hpp)

The C++ field `end` is a reserved word in Lean and is rendered `endp`. -/

structure Range where
  start : Int
  endp : Int
  deriving DecidableEq, Repr

/-- Source `Range(Sci::Position pos)`: both endpoints at `pos`. -/
def Range.single (pos : Int) : Range := ⟨pos, pos⟩

def Range.Valid (r : Range) : Bool :=
  decide (r.start ≠ invalidPosition) && decide (r.endp ≠ invalidPosition)

def Range.Empty (r : Range) : Bool := decide (r.start = r.endp)

def Range.Length (r : Range) : Int :=
  if r.start ≤ r.endp then r.endp - r.start else r.start - r.endp

def Range.First (r : Range) : Int :=
  if r.start ≤ r.endp then r.start else r.endp

def Range.Last (r : Range) : Int :=
  if r.start > r.endp then r.start else r.endp

/-- Source `Range::Contains(Sci::Position pos)`: inclusive of both endpoints,
direction-aware. -/
def Range.Contains (r : Range) (pos : Int) : Bool :=
  if r.start < r.endp then
    decide (pos ≥ r.start) && decide (pos ≤ r.endp)
  else
    decide (pos ≤ r.start) && decide (pos ≥ r.endp)

/-- Source `Range::ContainsCharacter(Sci::Position pos)`: is the character after
`pos` within the range? -/
def Range.ContainsCharacter (r : Range) (pos : Int) : Bool :=
  if r.start < r.endp then
    decide (pos ≥ r.start) && decide (pos < r.endp)
  else
    decide (pos < r.start) && decide (pos ≥ r.endp)

/-- Source `Range::Contains(Range other)`. -/
def Range.ContainsRange (r other : Range) : Bool :=
  r.Contains other.start && r.Contains other.endp

/-- Source `Range::Overlaps(Range other)`. -/
def Range.Overlaps (r other : Range) : Bool :=
  r.Contains other.start || r.Contains other.endp ||
    other.Contains r.start || other.Contains r.endp

/-! ## FontSpecification and Style (src/native/view/Style.hpp / Style.cpp)

`fontName` is a pointer to a name interned by the owning ViewStyle; the
source compares the pointers themselves, modelled here as `Int` identifiers
(`0` stands for `nullptr`).  `FontWeight`, `FontStretch`, `CharacterSet`
and `FontQuality` are C++ enum classes compared only by `==`/`<`, modelled
as `Int` with their numeric default values. -/

/-- Source `FontWeight::Normal` -/
def FontWeightNormal : Int := 400
/-- Source `FontStretch::Normal` -/
def FontStretchNormal : Int := 5
/-- Source `CharacterSet::Default` -/
def CharacterSetDefault : Int := 0
/-- Source `FontQuality::QualityDefault` -/
def FontQualityDefault : Int := 0
/-- Source `Hyperion::FontSizeMultiplier` -/
def FontSizeMultiplier : Int := 100

structure FontSpecification where
  fontName : Int := 0
  size : Int := 10 * FontSizeMultiplier
  weight : Int := FontWeightNormal
  stretch : Int := FontStretchNormal
  italic : Bool := false
  characterSet : Int := CharacterSetDefault
  extraFontFlag : Int := FontQualityDefault
  checkMonospaced : Bool := false
  deriving DecidableEq, Repr

/-- Source `FontSpecification::operator==` (Style.cpp lines 27–36). -/
def FontSpecification.beq (a b : FontSpecification) : Bool :=
  decide (a.fontName = b.fontName) &&
    decide (a.weight = b.weight) &&
    decide (a.italic = b.italic) &&
    decide (a.size = b.size) &&
    decide (a.stretch = b.stretch) &&
    decide (a.characterSet = b.characterSet) &&
    decide (a.extraFontFlag = b.extraFontFlag) &&
    decide (a.checkMonospaced = b.checkMonospaced)

/-- Source `FontSpecification::operator<` (Style.cpp lines 38–56).  The branch for
`italic` is the source's `return !italic;`; the branch for
`checkMonospaced` is the source's `checkMonospaced < other.checkMonospaced`
on C++ `bool`, i.e. `false < true`. -/
def FontSpecification.lt (a b : FontSpecification) : Bool :=
  if a.fontName ≠ b.fontName then decide (a.fontName < b.fontName)
  else if a.weight ≠ b.weight then decide (a.weight < b.weight)
  else if a.italic ≠ b.italic then !a.italic
  else if a.size ≠ b.size then decide (a.size < b.size)
  else if a.stretch ≠ b.stretch then decide (a.stretch < b.stretch)
  else if a.characterSet ≠ b.characterSet then decide (a.characterSet < b.characterSet)
  else if a.extraFontFlag ≠ b.extraFontFlag then decide (a.extraFontFlag < b.extraFontFlag)
  else if a.checkMonospaced ≠ b.checkMonospaced then (!a.checkMonospaced && b.checkMonospaced)
  else false

inductive CaseForce where
  | mixed | upper | lower | camel
  deriving DecidableEq, Repr

/-- Source `Style` (Style.hpp): only the attribute fields the claims touch are
carried; measurements and the realized font are omitted as no claim
mentions them. -/
structure Style extends FontSpecification where
  eolFilled : Bool := false
  underline : Bool := false
  caseForce : CaseForce := CaseForce.mixed
  visible : Bool := true
  changeable : Bool := true
  hotspot : Bool := false
  deriving DecidableEq, Repr

/-- Source `Style::IsProtected` (Style.hpp line 61): `!(changeable && visible)`. -/
def Style.IsProtected (s : Style) : Bool := !(s.changeable && s.visible)

/-! ## KeyMap (src/native/core/KeyMap.hpp)

The header declares `Clear`, `AssignCmdKey` and `Find` but their
definitions (KeyMap.cpp) are not part of the visible sources; they are
modelled from the spec below.  `Keys`, `KeyMod` and `Message` are numeric
identifier types. -/

-- Keys, KeyMod and Message are numeric identifier types, modelled as Int.



structure KeyModifiers where
  key : Int
  modifiers : Int
  deriving DecidableEq, Repr

/-- Source `KeyModifiers::operator<` (KeyMap.hpp lines 30–35). -/
def KeyModifiers.lt (a b : KeyModifiers) : Bool :=
  if a.key = b.key then decide (a.modifiers < b.modifiers)
  else decide (a.key < b.key)

/-- The `std::map<KeyModifiers, Message> kmap` member, as an association
list whose entries have pairwise-distinct keys (insertion replaces). -/
structure KeyMap where
  kmap : List (KeyModifiers × Int)
  deriving DecidableEq, Repr

/-- Modelled from the spec: `Clear()` empties the map entirely; it does not
reseed defaults.  (KeyMap.cpp is not among the visible sources.) -/
def KeyMap.Clear (_km : KeyMap) : KeyMap := ⟨[]⟩

/-- Modelled from the spec: `AssignCmdKey` overwrites any existing binding
for the same (key, modifier-set) pair.  (KeyMap.cpp is not among the
visible sources.) -/
def KeyMap.AssignCmdKey (km : KeyMap) (key : Int) (modifiers : Int)
    (msg : Int) : KeyMap :=
  ⟨(⟨key, modifiers⟩, msg) ::
    km.kmap.filter (fun p => !(decide (p.1.key = key) && decide (p.1.modifiers = modifiers)))⟩

/-- Modelled from the spec: `Find(key, mods)` returns command id `0`
("unbound") on miss.  (KeyMap.cpp is not among the visible sources.) -/
def KeyMap.Find (km : KeyMap) (key : Int) (modifiers : Int) : Int :=
  match km.kmap.find? (fun p => decide (p.1.key = key) && decide (p.1.modifiers = modifiers)) with
  | some p => p.2
  | none => 0

/-! ## ModelState and EditModel (src/native/core/EditModel.cpp)

A `Selection` is carried only through its `ToString()` serialization, which
is all `ModelState` stores.  `SelectionWithScroll` is value-initialized by
`return {};`, i.e. empty string and line 0. -/

structure Selection where
  repr : String
  deriving DecidableEq, Repr

def Selection.ToString (s : Selection) : String := s.repr

structure SelectionWithScroll where
  ssCurrent : String
  topLine : Int
  deriving DecidableEq, Repr

/-- The default-constructed `SelectionWithScroll` (`return {};`). -/
def SelectionWithScroll.empty : SelectionWithScroll := ⟨"", 0⟩

/-- Source `SelectionStack` = `std::map<int, SelectionWithScroll>`, modelled by its
lookup function. -/
abbrev SelectionStack := Int → Option SelectionWithScroll

/-- Erase entries from the iterator returned by `stack.find index` to
`stack.end()`: when `index` is a present key this removes every key
`≥ index` (the map is ordered by key); when `find` misses it returns
`end()` and `erase(end(), end())` removes nothing. -/
def SelectionStack.eraseFromFound (stack : SelectionStack) (index : Int) : SelectionStack :=
  match stack index with
  | some _ => fun k => if index ≤ k then none else stack k
  | none => stack

structure SelectionHistory where
  indexCurrent : Int
  ssCurrent : String
  stack : SelectionStack

/-- A default-constructed `SelectionHistory`: no pending transient snapshot
(`-1` sentinel) and an empty stack. -/
def SelectionHistory.init : SelectionHistory :=
  { indexCurrent := -1, ssCurrent := "", stack := fun _ => none }

inductive UndoRedo where
  | undo | redo
  deriving DecidableEq, Repr

structure ModelState where
  historyForUndo : SelectionHistory
  historyForRedo : SelectionHistory

/-- Source `std::make_shared<ModelState>()`: default-constructed histories. -/
def ModelState.init : ModelState :=
  { historyForUndo := SelectionHistory.init, historyForRedo := SelectionHistory.init }

/-- Source `ModelState::RememberSelectionForUndo` (EditModel.cpp lines 61–64). -/
def ModelState.RememberSelectionForUndo (ms : ModelState) (index : Int)
    (sel : Selection) : ModelState :=
  { ms with historyForUndo :=
      { ms.historyForUndo with indexCurrent := index, ssCurrent := sel.ToString } }

/-- Source `ModelState::ForgetSelectionForUndo` (EditModel.cpp lines 66–68). -/
def ModelState.ForgetSelectionForUndo (ms : ModelState) : ModelState :=
  { ms with historyForUndo := { ms.historyForUndo with indexCurrent := -1 } }

/-- Source `ModelState::RememberSelectionOntoStack` (EditModel.cpp lines 70–75). -/
def ModelState.RememberSelectionOntoStack (ms : ModelState) (index : Int)
    (topLine : Int) : ModelState :=
  if ms.historyForUndo.indexCurrent ≥ 0 ∧ index = ms.historyForUndo.indexCurrent + 1 then
    { ms with historyForUndo :=
        { ms.historyForUndo with stack := fun k =>
            if k = index then some ⟨ms.historyForUndo.ssCurrent, topLine⟩
            else ms.historyForUndo.stack k } }
  else ms

/-- Source `ModelState::RememberSelectionForRedoOntoStack` (EditModel.cpp lines 77–79). -/
def ModelState.RememberSelectionForRedoOntoStack (ms : ModelState) (index : Int)
    (sel : Selection) (topLine : Int) : ModelState :=
  { ms with historyForRedo :=
      { ms.historyForRedo with stack := fun k =>
          if k = index then some ⟨sel.ToString, topLine⟩
          else ms.historyForRedo.stack k } }

/-- Source `ModelState::SelectionFromStack` (EditModel.cpp lines 81–88). -/
def ModelState.SelectionFromStack (ms : ModelState) (index : Int)
    (history : UndoRedo) : SelectionWithScroll :=
  let sh := if history = UndoRedo.undo then ms.historyForUndo else ms.historyForRedo
  match sh.stack index with
  | some v => v
  | none => SelectionWithScroll.empty

/-- Source `ModelState::TruncateUndo` (EditModel.cpp lines 90–95): each stack is
erased from its own `find(index)` iterator to its end. -/
def ModelState.TruncateUndo (ms : ModelState) (index : Int) : ModelState :=
  { ms with
      historyForUndo :=
        { ms.historyForUndo with stack := ms.historyForUndo.stack.eraseFromFound index },
      historyForRedo :=
        { ms.historyForRedo with stack := ms.historyForRedo.stack.eraseFromFound index } }

/-! ### EditModel

Only the EditModel fields the claims touch are carried.  The attached
document is represented by its fields the claims read or write: its
`dbcsCodePage` and the per-view-state registry entry for this view
(`GetViewState(this)` / `SetViewState(this, …)`).  A registry entry is a
`ViewState`: either the expected `ModelState` kind or some foreign kind;
`std::dynamic_pointer_cast<ModelState>` succeeds exactly on the former. -/

inductive Bidirectional where
  | Disabled | L2R | R2L
  deriving DecidableEq, Repr

inductive UndoSelectionHistoryOption where
  | Disabled | Enabled | Scroll
  deriving DecidableEq, Repr

/-- Source `SC_CP_UTF8` / `CpUtf8`. -/
def CpUtf8 : Int := 65001

inductive ViewState where
  | model (ms : ModelState)
  | foreign

/-- Source `std::dynamic_pointer_cast<ModelState>(vss)`: `some` exactly when the
stored entry is of the `ModelState` kind. -/
def ViewState.castToModelState : ViewState → Option ModelState
  | ViewState.model ms => some ms
  | ViewState.foreign => none

structure DocumentState where
  dbcsCodePage : Int
  viewState : Option ViewState

structure EditModel where
  pdoc : DocumentState
  modelState : Option ModelState
  undoSelectionHistoryOption : UndoSelectionHistoryOption
  bidirectional : Bidirectional

/-- Source `EditModel::BidirectionalEnabled` (EditModel.cpp lines 135–138). -/
def EditModel.BidirectionalEnabled (em : EditModel) : Bool :=
  decide (em.bidirectional ≠ Bidirectional.Disabled) &&
    decide (CpUtf8 = em.pdoc.dbcsCodePage)

/-- Source `EditModel::EnsureModelState` (EditModel.cpp lines 174–183). -/
def EditModel.EnsureModelState (em : EditModel) : EditModel :=
  if em.modelState.isNone ∧
      em.undoSelectionHistoryOption ≠ UndoSelectionHistoryOption.Disabled then
    match em.pdoc.viewState with
    | some vss => { em with modelState := vss.castToModelState }
    | none =>
        { em with modelState := some ModelState.init,
                  pdoc := { em.pdoc with viewState := some (ViewState.model ModelState.init) } }
  else em

/-! ## Helpers for stating and proving the ordering properties -/

/-- Three-way comparison of integers. -/
def cmpInt (x y : Int) : Ordering :=
  if x < y then Ordering.lt else if x = y then Ordering.eq else Ordering.gt

/-- Numeric key of a C++ `bool` under its arithmetic order: `false` is `0`,
`true` is `1`. -/
def boolKey (b : Bool) : Int := if b then 1 else 0

/-- Modelled from the spec (amended): the documented `FontSpecification`
precedence — name, then weight, then italic flag (non-italic sorting
before italic, the direction the source implements), then size, then
stretch, then character set, then quality flag, then monospace-check flag
— as a single three-way lexicographic comparison. -/
def FontSpecification.specCmp (a b : FontSpecification) : Ordering :=
  (cmpInt a.fontName b.fontName).then
    ((cmpInt a.weight b.weight).then
      ((cmpInt (boolKey a.italic) (boolKey b.italic)).then
        ((cmpInt a.size b.size).then
          ((cmpInt a.stretch b.stretch).then
            ((cmpInt a.characterSet b.characterSet).then
              ((cmpInt a.extraFontFlag b.extraFontFlag).then
                (cmpInt (boolKey a.checkMonospaced) (boolKey b.checkMonospaced))))))))

/-- A sequence of `RememberSelectionOntoStack` calls, applied in order. -/
def applyOntoStackCalls (ms : ModelState) (calls : List (Int × Int)) : ModelState :=
  calls.foldl (fun s p => s.RememberSelectionOntoStack p.1 p.2) ms

/-! ## Concrete fixtures used by counterexamples and witnesses -/

/-- A stack holding exactly the keys 5, 6, 8, 9. -/
def stackFiveSixEightNine : SelectionStack :=
  fun k => if k = 5 ∨ k = 6 ∨ k = 8 ∨ k = 9 then some SelectionWithScroll.empty else none

/-- A `ModelState` whose undo and redo stacks hold exactly the keys
5, 6, 8, 9. -/
def msFiveSixEightNine : ModelState :=
  { historyForUndo := { indexCurrent := -1, ssCurrent := "", stack := stackFiveSixEightNine },
    historyForRedo := { indexCurrent := -1, ssCurrent := "", stack := stackFiveSixEightNine } }

/-- A stack holding exactly the keys 5, 6, 7, 8, 9. -/
def stackFiveToNine : SelectionStack :=
  fun k => if k = 5 ∨ k = 6 ∨ k = 7 ∨ k = 8 ∨ k = 9 then some SelectionWithScroll.empty
  else none

/-- A `ModelState` whose undo and redo stacks hold exactly the keys
5, 6, 7, 8, 9. -/
def msFiveToNine : ModelState :=
  { historyForUndo := { indexCurrent := -1, ssCurrent := "", stack := stackFiveToNine },
    historyForRedo := { indexCurrent := -1, ssCurrent := "", stack := stackFiveToNine } }

/-- A `ModelState` whose undo stack holds one entry at key 4. -/
def msSingleEntry : ModelState :=
  { historyForUndo :=
      { indexCurrent := -1, ssCurrent := "",
        stack := fun k => if k = 4 then some ⟨"sel", 2⟩ else none },
    historyForRedo := SelectionHistory.init }

/-- An `EditModel` with the history option enabled, no attached model state,
and a registry entry of a foreign kind. -/
def emForeignEntry : EditModel :=
  { pdoc := { dbcsCodePage := 0, viewState := some ViewState.foreign },
    modelState := none,
    undoSelectionHistoryOption := UndoSelectionHistoryOption.Enabled,
    bidirectional := Bidirectional.Disabled }

/-- An `EditModel` with the history option enabled, no attached model state,
and a registry entry of the expected `ModelState` kind. -/
def emModelEntry : EditModel :=
  { pdoc := { dbcsCodePage := 0, viewState := some (ViewState.model ModelState.init) },
    modelState := none,
    undoSelectionHistoryOption := UndoSelectionHistoryOption.Enabled,
    bidirectional := Bidirectional.Disabled }

/-- An `EditModel` that requested bidirectional rendering on a non-UTF-8
document. -/
def emBidiNonUtf8 : EditModel :=
  { pdoc := { dbcsCodePage := 932, viewState := none },
    modelState := none,
    undoSelectionHistoryOption := UndoSelectionHistoryOption.Disabled,
    bidirectional := Bidirectional.R2L }

/-- A non-italic font specification (all other fields default). -/
def fsNonItalic : FontSpecification := { italic := false }

/-- An italic font specification (all other fields default). -/
def fsItalic : FontSpecification := { italic := true }

/-- Font specification with size 800 (other fields default). -/
def fsSizeSmall : FontSpecification := { size := 800 }

/-- Font specification with size 900 (other fields default). -/
def fsSizeMid : FontSpecification := { size := 900 }

/-! ## Ordering helper lemmas -/

theorem then_eq_lt (o p : Ordering) :
    o.then p = Ordering.lt ↔ o = Ordering.lt ∨ (o = Ordering.eq ∧ p = Ordering.lt) := by
  cases o <;> simp [Ordering.then]

theorem then_eq_eq (o p : Ordering) :
    o.then p = Ordering.eq ↔ o = Ordering.eq ∧ p = Ordering.eq := by
  cases o <;> simp [Ordering.then]

theorem then_eq_gt (o p : Ordering) :
    o.then p = Ordering.gt ↔ o = Ordering.gt ∨ (o = Ordering.eq ∧ p = Ordering.gt) := by
  cases o <;> simp [Ordering.then]

theorem cmpInt_eq_lt (x y : Int) : cmpInt x y = Ordering.lt ↔ x < y := by
  unfold cmpInt
  split_ifs with h1 h2 <;> simp_all <;> omega

theorem cmpInt_eq_eq (x y : Int) : cmpInt x y = Ordering.eq ↔ x = y := by
  unfold cmpInt
  split_ifs with h1 h2 <;> simp_all <;> omega

theorem cmpInt_eq_gt (x y : Int) : cmpInt x y = Ordering.gt ↔ y < x := by
  unfold cmpInt
  split_ifs with h1 h2 <;> simp_all <;> omega

theorem cmpInt_self (x : Int) : cmpInt x x = Ordering.eq := by
  simp [cmpInt_eq_eq]

theorem cmpInt_trans {x y z : Int} :
    cmpInt x y = Ordering.lt → cmpInt y z = Ordering.lt → cmpInt x z = Ordering.lt := by
  simp only [cmpInt_eq_lt]
  omega

theorem cmpInt_then_trans {x y z : Int} {r s t : Ordering}
    (h : r = Ordering.lt → s = Ordering.lt → t = Ordering.lt) :
    (cmpInt x y).then r = Ordering.lt → (cmpInt y z).then s = Ordering.lt →
      (cmpInt x z).then t = Ordering.lt := by
  simp only [then_eq_lt, cmpInt_eq_lt, cmpInt_eq_eq]
  rintro (h1 | ⟨h1, h1r⟩) (h2 | ⟨h2, h2s⟩)
  · left; omega
  · left; omega
  · left; omega
  · right; exact ⟨by omega, h h1r h2s⟩

theorem boolKey_eq (x y : Bool) : boolKey x = boolKey y ↔ x = y := by
  cases x <;> cases y <;> simp [boolKey]

/-! ## Step lemmas relating the source if-chain to the three-way chain -/

theorem stepInt_iff (x y : Int) (bRest : Bool) (oRest : Ordering)
    (hRest : bRest = true ↔ oRest = Ordering.lt) :
    ((if x ≠ y then decide (x < y) else bRest) = true) ↔
      ((cmpInt x y).then oRest = Ordering.lt) := by
  by_cases h : x = y
  · subst h
    simp [cmpInt_self, Ordering.then, hRest]
  · simp [h, then_eq_lt, cmpInt_eq_lt, cmpInt_eq_eq]

theorem stepItalic_iff (x y : Bool) (bRest : Bool) (oRest : Ordering)
    (hRest : bRest = true ↔ oRest = Ordering.lt) :
    ((if x ≠ y then !x else bRest) = true) ↔
      ((cmpInt (boolKey x) (boolKey y)).then oRest = Ordering.lt) := by
  cases x <;> cases y <;>
    simp [boolKey, cmpInt, Ordering.then, hRest]

theorem stepMono_iff (x y : Bool) :
    ((if x ≠ y then (!x && y) else false) = true) ↔
      (cmpInt (boolKey x) (boolKey y) = Ordering.lt) := by
  cases x <;> cases y <;> simp [boolKey, cmpInt]

theorem stepInt_gt_iff (x y : Int) (bRest : Bool) (oRest : Ordering)
    (hRest : bRest = true ↔ oRest = Ordering.gt) :
    ((if y ≠ x then decide (y < x) else bRest) = true) ↔
      ((cmpInt x y).then oRest = Ordering.gt) := by
  by_cases h : y = x
  · subst h
    simp [cmpInt_self, Ordering.then, hRest]
  · simp only [ne_eq, h, not_false_eq_true, if_true, then_eq_gt, cmpInt_eq_gt,
      cmpInt_eq_eq, decide_eq_true_eq]
    constructor
    · intro hy
      exact Or.inl hy
    · rintro (hy | ⟨hxy, _⟩)
      · exact hy
      · exact absurd hxy.symm h

theorem stepItalic_gt_iff (x y : Bool) (bRest : Bool) (oRest : Ordering)
    (hRest : bRest = true ↔ oRest = Ordering.gt) :
    ((if y ≠ x then !y else bRest) = true) ↔
      ((cmpInt (boolKey x) (boolKey y)).then oRest = Ordering.gt) := by
  cases x <;> cases y <;>
    simp [boolKey, cmpInt, Ordering.then, hRest]

theorem stepMono_gt_iff (x y : Bool) :
    ((if y ≠ x then (!y && x) else false) = true) ↔
      (cmpInt (boolKey x) (boolKey y) = Ordering.gt) := by
  cases x <;> cases y <;> simp [boolKey, cmpInt]

/-! ## FontSpecification order characterizations -/

theorem fslt_iff_specCmp (a b : FontSpecification) :
    FontSpecification.lt a b = true ↔ FontSpecification.specCmp a b = Ordering.lt := by
  unfold FontSpecification.lt FontSpecification.specCmp
  exact stepInt_iff _ _ _ _ (stepInt_iff _ _ _ _ (stepItalic_iff _ _ _ _
    (stepInt_iff _ _ _ _ (stepInt_iff _ _ _ _ (stepInt_iff _ _ _ _
      (stepInt_iff _ _ _ _ (stepMono_iff _ _)))))))

theorem fslt_rev_iff_specCmp (a b : FontSpecification) :
    FontSpecification.lt b a = true ↔ FontSpecification.specCmp a b = Ordering.gt := by
  unfold FontSpecification.lt FontSpecification.specCmp
  exact stepInt_gt_iff _ _ _ _ (stepInt_gt_iff _ _ _ _ (stepItalic_gt_iff _ _ _ _
    (stepInt_gt_iff _ _ _ _ (stepInt_gt_iff _ _ _ _ (stepInt_gt_iff _ _ _ _
      (stepInt_gt_iff _ _ _ _ (stepMono_gt_iff _ _)))))))

theorem fsbeq_iff_specCmp (a b : FontSpecification) :
    FontSpecification.beq a b = true ↔ FontSpecification.specCmp a b = Ordering.eq := by
  unfold FontSpecification.beq FontSpecification.specCmp
  simp only [Bool.and_eq_true, decide_eq_true_eq, then_eq_eq, cmpInt_eq_eq, boolKey_eq]
  tauto

theorem specCmp_trans {a b c : FontSpecification} :
    FontSpecification.specCmp a b = Ordering.lt →
      FontSpecification.specCmp b c = Ordering.lt →
      FontSpecification.specCmp a c = Ordering.lt := by
  unfold FontSpecification.specCmp
  exact cmpInt_then_trans (cmpInt_then_trans (cmpInt_then_trans (cmpInt_then_trans
    (cmpInt_then_trans (cmpInt_then_trans (cmpInt_then_trans cmpInt_trans))))))

theorem fslt_trichotomy (a b : FontSpecification) :
    (FontSpecification.lt a b = true ∧ FontSpecification.beq a b = false ∧
        FontSpecification.lt b a = false) ∨
      (FontSpecification.lt a b = false ∧ FontSpecification.beq a b = true ∧
        FontSpecification.lt b a = false) ∨
      (FontSpecification.lt a b = false ∧ FontSpecification.beq a b = false ∧
        FontSpecification.lt b a = true) := by
  rcases h : FontSpecification.specCmp a b with _ | _ | _
  · left
    refine ⟨(fslt_iff_specCmp a b).mpr h, ?_, ?_⟩
    · rw [Bool.eq_false_iff]
      intro hc
      simp [fsbeq_iff_specCmp, h] at hc
    · rw [Bool.eq_false_iff]
      intro hc
      simp [fslt_rev_iff_specCmp, h] at hc
  · right; left
    refine ⟨?_, (fsbeq_iff_specCmp a b).mpr h, ?_⟩
    · rw [Bool.eq_false_iff]
      intro hc
      simp [fslt_iff_specCmp, h] at hc
    · rw [Bool.eq_false_iff]
      intro hc
      simp [fslt_rev_iff_specCmp, h] at hc
  · right; right
    refine ⟨?_, ?_, (fslt_rev_iff_specCmp a b).mpr h⟩
    · rw [Bool.eq_false_iff]
      intro hc
      simp [fslt_iff_specCmp, h] at hc
    · rw [Bool.eq_false_iff]
      intro hc
      simp [fsbeq_iff_specCmp, h] at hc

/-! ## C1 — TruncateUndo -/

/-- C1 (amended): for each stack independently, `TruncateUndo index` removes
every entry whose key is at least `index` when `index` itself is a present
key of that stack, and leaves that stack completely unchanged when `index`
is absent from it (`std::map::find` returns `end()` on a miss, so the
erase range is empty). -/
theorem truncateUndo_erase_from_found (ms : ModelState) (index k : Int) :
    ((ms.historyForUndo.stack index).isSome = true →
      (ms.TruncateUndo index).historyForUndo.stack k =
        if index ≤ k then none else ms.historyForUndo.stack k) ∧
    (ms.historyForUndo.stack index = none →
      (ms.TruncateUndo index).historyForUndo.stack k = ms.historyForUndo.stack k) ∧
    ((ms.historyForRedo.stack index).isSome = true →
      (ms.TruncateUndo index).historyForRedo.stack k =
        if index ≤ k then none else ms.historyForRedo.stack k) ∧
    (ms.historyForRedo.stack index = none →
      (ms.TruncateUndo index).historyForRedo.stack k = ms.historyForRedo.stack k) := by
  unfold ModelState.TruncateUndo SelectionStack.eraseFromFound
  refine ⟨?_, ?_, ?_, ?_⟩ <;> intro h
  · rcases hu : ms.historyForUndo.stack index with _ | v
    · rw [hu] at h; simp at h
    · simp [hu]
  · simp [h]
  · rcases hr : ms.historyForRedo.stack index with _ | v
    · rw [hr] at h; simp at h
    · simp [hr]
  · simp [h]

/-- C1 counterexample: with both stacks holding exactly the keys
5, 6, 8, 9, `TruncateUndo 7` leaves the keys 8 and 9 in place on both
stacks (the claim requires them to be erased, leaving exactly 5 and 6). -/
theorem truncateUndo_absent_key_counterexample :
    (msFiveSixEightNine.TruncateUndo 7).historyForUndo.stack 8 =
        some SelectionWithScroll.empty ∧
      (msFiveSixEightNine.TruncateUndo 7).historyForUndo.stack 9 =
        some SelectionWithScroll.empty ∧
      (msFiveSixEightNine.TruncateUndo 7).historyForRedo.stack 8 =
        some SelectionWithScroll.empty ∧
      (msFiveSixEightNine.TruncateUndo 7).historyForRedo.stack 9 =
        some SelectionWithScroll.empty := by
  decide

/-- C1 witness: with key 7 present (stacks holding 5–9), `TruncateUndo 7`
does erase key 8. -/
theorem truncateUndo_erase_from_found_witness :
    (msFiveToNine.TruncateUndo 7).historyForUndo.stack 8 = none := by
  have h := (truncateUndo_erase_from_found msFiveToNine 7 8).1 (by decide)
  simpa using h

/-! ## C2 — RememberSelectionForUndo / RememberSelectionOntoStack -/

/-- C2 (confirmed): after `RememberSelectionForUndo i sel` records the
transient snapshot at a transaction index `i` (transaction indices are
non-negative; `-1` is the reserved no-pending sentinel), a call
`RememberSelectionOntoStack c topLine` writes `(sel, topLine)` at key `c`
exactly when `c = i + 1`; for any other `c` the undo stack is untouched,
and the transient index is left at `i`, so a later commit with no
intervening `RememberSelectionForUndo` also leaves its index absent. -/
theorem rememberSelectionOntoStack_commit_rule (ms : ModelState) (i : Int)
    (sel : Selection) (c : Int) (topLine : Int) (hi : 0 ≤ i) :
    (c = i + 1 →
      ((ms.RememberSelectionForUndo i sel).RememberSelectionOntoStack c topLine).historyForUndo.stack c =
        some ⟨sel.ToString, topLine⟩) ∧
    (∀ k, k ≠ c →
      ((ms.RememberSelectionForUndo i sel).RememberSelectionOntoStack c topLine).historyForUndo.stack k =
        ms.historyForUndo.stack k) ∧
    (c ≠ i + 1 →
      ∀ k,
        ((ms.RememberSelectionForUndo i sel).RememberSelectionOntoStack c topLine).historyForUndo.stack k =
          ms.historyForUndo.stack k) ∧
    ((ms.RememberSelectionForUndo i sel).RememberSelectionOntoStack c topLine).historyForUndo.indexCurrent = i := by
  unfold ModelState.RememberSelectionForUndo ModelState.RememberSelectionOntoStack
  by_cases hc : c = i + 1
  · subst hc
    rw [if_pos ⟨hi, rfl⟩]
    refine ⟨fun _ => by simp, fun k hk => by simp [hk], fun hne => absurd rfl hne, rfl⟩
  · rw [if_neg (fun hand => hc hand.2)]
    exact ⟨fun hcc => absurd hcc hc, fun k _ => rfl, fun _ _ => rfl, rfl⟩

/-- C2 witness: `RememberSelectionForUndo 5 selA` then
`RememberSelectionOntoStack 6 10` stores the pair at undo-index 6. -/
theorem rememberSelectionOntoStack_commit_rule_witness :
    ((ModelState.init.RememberSelectionForUndo 5 ⟨"selA"⟩).RememberSelectionOntoStack 6 10).historyForUndo.stack 6 =
      some ⟨"selA", 10⟩ :=
  (rememberSelectionOntoStack_commit_rule ModelState.init 5 ⟨"selA"⟩ 6 10 (by decide)).1 rfl

/-! ## C3 — EnsureModelState -/

/-- C3 (amended): `EnsureModelState` is a no-op when the history option is
disabled or a model state is already attached; otherwise it adopts a
registry entry of the expected `ModelState` kind, constructs and registers
a fresh `ModelState` when no entry exists, and when an entry of an
unexpected kind exists the failed cast leaves the model state unattached
and the foreign registry entry untouched (no fresh state is constructed or
registered). -/
theorem ensureModelState_cases (em : EditModel) :
    (em.undoSelectionHistoryOption = UndoSelectionHistoryOption.Disabled →
      em.EnsureModelState = em) ∧
    (em.modelState.isSome = true → em.EnsureModelState = em) ∧
    (em.modelState = none →
      em.undoSelectionHistoryOption ≠ UndoSelectionHistoryOption.Disabled →
      ((∀ ms, em.pdoc.viewState = some (ViewState.model ms) →
          em.EnsureModelState = { em with modelState := some ms }) ∧
        (em.pdoc.viewState = some ViewState.foreign → em.EnsureModelState = em) ∧
        (em.pdoc.viewState = none →
          em.EnsureModelState =
            { em with
                modelState := some ModelState.init,
                pdoc := { em.pdoc with
                            viewState := some (ViewState.model ModelState.init) } }))) := by
  unfold EditModel.EnsureModelState
  refine ⟨?_, ?_, ?_⟩
  · intro hopt
    rw [if_neg]
    rintro ⟨_, hne⟩
    exact hne hopt
  · intro hsome
    rw [if_neg]
    rintro ⟨hn, _⟩
    rw [Option.isNone_iff_eq_none] at hn
    rw [hn] at hsome
    simp at hsome
  · intro hnone hopt
    rw [if_pos ⟨by simp [hnone], hopt⟩]
    refine ⟨?_, ?_, ?_⟩
    · intro ms hvs
      rw [hvs]
      rfl
    · intro hvs
      rw [hvs]
      cases em with
      | mk pdoc modelState opt bidi =>
          simp only at hnone
          subst hnone
          rfl
    · intro hvs
      rw [hvs]

/-- C3 counterexample: with the option enabled, no state attached, and a
registry entry of a foreign kind, `EnsureModelState` leaves the model
state unattached and the foreign entry in place — it does not construct or
register a fresh `ModelState` as the claim requires. -/
theorem ensureModelState_foreign_counterexample :
    emForeignEntry.EnsureModelState.modelState = none ∧
      emForeignEntry.EnsureModelState.pdoc.viewState = some ViewState.foreign :=
  ⟨rfl, rfl⟩

/-- C3 witness: an entry of the expected kind is adopted. -/
theorem ensureModelState_cases_witness :
    emModelEntry.EnsureModelState = { emModelEntry with modelState := some ModelState.init } :=
  ((ensureModelState_cases emModelEntry).2.2 rfl (by decide)).1 ModelState.init rfl

/-! ## C5 — SelectionFromStack -/

/-- C5 (confirmed): `SelectionFromStack index direction` returns exactly the
entry stored at `index` in the requested stack when present, and the
default `SelectionWithScroll` when absent; it is a pure function, so the
absent case raises no error and changes no state. -/
theorem selectionFromStack_present_or_default (ms : ModelState) (index : Int)
    (dir : UndoRedo) :
    (∀ v, (if dir = UndoRedo.undo then ms.historyForUndo else ms.historyForRedo).stack index = some v →
        ms.SelectionFromStack index dir = v) ∧
    ((if dir = UndoRedo.undo then ms.historyForUndo else ms.historyForRedo).stack index = none →
        ms.SelectionFromStack index dir = SelectionWithScroll.empty) := by
  constructor
  · intro v hv
    simp [ModelState.SelectionFromStack, hv]
  · intro hv
    simp [ModelState.SelectionFromStack, hv]

/-- C5 witness: a present entry is returned as stored, and an absent index
returns the default. -/
theorem selectionFromStack_present_or_default_witness :
    msSingleEntry.SelectionFromStack 4 UndoRedo.undo = ⟨"sel", 2⟩ :=
  (selectionFromStack_present_or_default msSingleEntry 4 UndoRedo.undo).1 ⟨"sel", 2⟩ (by decide)

/-! ## C6 — Range endpoint containment -/

/-- C6 (confirmed): for every non-empty range, whether stored forward or
reversed, `Contains` accepts both `First` and `Last`, and
`ContainsCharacter` rejects `Last`. -/
theorem range_contains_endpoints (r : Range) (h : r.Empty = false) :
    r.Contains r.First = true ∧ r.Contains r.Last = true ∧
      r.ContainsCharacter r.Last = false := by
  unfold Range.Empty at h
  rw [decide_eq_false_iff_not] at h
  unfold Range.Contains Range.ContainsCharacter Range.First Range.Last
  split_ifs <;>
    simp only [Bool.and_eq_true, decide_eq_true_eq, Bool.and_eq_false_iff,
      decide_eq_false_iff_not] <;>
    omega

/-- C6 witness: the reversed range (9, 3). -/
theorem range_contains_endpoints_witness :
    Range.Contains ⟨9, 3⟩ (Range.First ⟨9, 3⟩) = true ∧
      Range.Contains ⟨9, 3⟩ (Range.Last ⟨9, 3⟩) = true ∧
      Range.ContainsCharacter ⟨9, 3⟩ (Range.Last ⟨9, 3⟩) = false :=
  range_contains_endpoints ⟨9, 3⟩ (by decide)

/-! ## C7 — Style.IsProtected -/

/-- C7 (confirmed): `IsProtected` is true for the three assignments where
not both `changeable` and `visible` hold, and false exactly for
`changeable = true, visible = true`. -/
theorem style_isProtected_truth_table (s : Style) :
    (s.changeable = false → s.visible = true → s.IsProtected = true) ∧
    (s.changeable = true → s.visible = false → s.IsProtected = true) ∧
    (s.changeable = false → s.visible = false → s.IsProtected = true) ∧
    (s.changeable = true → s.visible = true → s.IsProtected = false) := by
  refine ⟨?_, ?_, ?_, ?_⟩ <;> intro hc hv <;> simp [Style.IsProtected, hc, hv]

/-- C7 witness: the default style (changeable and visible) is not
protected. -/
theorem style_isProtected_truth_table_witness :
    Style.IsProtected {} = false :=
  (style_isProtected_truth_table {}).2.2.2 rfl rfl

/-! ## C8 — KeyMap -/

/-- Helper: searching a filtered list finds the same entry as searching the
original when every entry the search accepts also passes the filter. -/
theorem find?_filter_of_imp {α : Type} (p q : α → Bool) (l : List α)
    (h : ∀ x, p x = true → q x = true) :
    List.find? p (l.filter q) = List.find? p l := by
  induction l with
  | nil => rfl
  | cons a t ih =>
      by_cases hq : q a = true
      · rw [List.filter_cons_of_pos hq]
        by_cases hp : p a = true
        · rw [List.find?_cons_of_pos _ hp, List.find?_cons_of_pos _ hp]
        · rw [List.find?_cons_of_neg _ hp, List.find?_cons_of_neg _ hp, ih]
      · have hp : ¬p a = true := fun hpa => hq (h a hpa)
        rw [List.filter_cons_of_neg hq, List.find?_cons_of_neg _ hp, ih]

/-- Helper: an assigned binding is found. -/
theorem keyMap_find_assign_same (km : KeyMap) (K M C : Int) :
    (km.AssignCmdKey K M C).Find K M = C := by
  unfold KeyMap.Find KeyMap.AssignCmdKey
  rw [List.find?_cons_of_pos _ (by simp)]

/-- Helper: assigning one (key, modifier) pair does not change what `Find`
returns for a different pair. -/
theorem keyMap_find_assign_other (km : KeyMap) (K M K2 M2 C2 : Int)
    (h : ¬(K = K2 ∧ M = M2)) :
    (km.AssignCmdKey K2 M2 C2).Find K M = km.Find K M := by
  have hfalse : (decide (K2 = K) && decide (M2 = M)) = false := by
    by_cases h1 : K2 = K
    · have h2 : ¬(M2 = M) := fun h2 => h ⟨h1.symm, h2.symm⟩
      simp [h2]
    · simp [h1]
  have himp : ∀ x : KeyModifiers × Int,
      (decide (x.1.key = K) && decide (x.1.modifiers = M)) = true →
        (!(decide (x.1.key = K2) && decide (x.1.modifiers = M2))) = true := by
    intro x hx
    simp only [Bool.and_eq_true, decide_eq_true_eq] at hx
    rcases hx with ⟨h1, h2⟩
    by_cases hk : K = K2
    · have hm : ¬(M = M2) := fun hm2 => h ⟨hk, hm2⟩
      simp [h1, h2, hk, hm]
    · simp [h1, hk]
  unfold KeyMap.Find KeyMap.AssignCmdKey
  simp only [List.find?_cons, hfalse]
  rw [find?_filter_of_imp _ _ _ himp]

/-- C8 (confirmed, modelled from the spec since KeyMap.cpp is not among the
visible sources): after `Clear`, `Find` returns 0 for every key and
modifier set; after `AssignCmdKey K M C`, `Find K M` returns `C`, and it
keeps returning `C` across a reassignment of a different (key, modifier)
pair, until `(K, M)` itself is reassigned or the map is cleared. -/
theorem keyMap_clear_assign_find (km : KeyMap) (k K K2 : Int) (m M M2 : Int)
    (C C2 : Int) :
    (km.Clear.Find k m = 0) ∧
    ((km.AssignCmdKey K M C).Find K M = C) ∧
    ((K, M) ≠ (K2, M2) →
      ((km.AssignCmdKey K M C).AssignCmdKey K2 M2 C2).Find K M = C) ∧
    ((km.AssignCmdKey K M C).AssignCmdKey K M C2).Find K M = C2 ∧
    ((km.AssignCmdKey K M C).Clear.Find k m = 0) := by
  refine ⟨rfl, keyMap_find_assign_same km K M C, ?_,
    keyMap_find_assign_same _ K M C2, rfl⟩
  intro hne
  have h' : ¬(K = K2 ∧ M = M2) := by
    rintro ⟨h1, h2⟩
    exact hne (by rw [h1, h2])
  rw [keyMap_find_assign_other _ _ _ _ _ _ h']
  exact keyMap_find_assign_same km K M C

/-- C8 witness: bindings persist across assignment of a different key. -/
theorem keyMap_clear_assign_find_witness :
    (((KeyMap.mk []).AssignCmdKey 1 2 3).AssignCmdKey 4 5 6).Find 1 2 = 3 :=
  (keyMap_clear_assign_find ⟨[]⟩ 0 1 4 0 2 5 3 6).2.2.1 (by decide)

/-! ## C9 — BidirectionalEnabled -/

/-- C9 (confirmed): `BidirectionalEnabled` holds exactly when the
bidirectional mode is not `Disabled` and the document's code page is the
UTF-8 value; for any other code page it is false regardless of the
requested mode. -/
theorem bidirectionalEnabled_iff (em : EditModel) :
    (em.BidirectionalEnabled = true ↔
      (em.bidirectional ≠ Bidirectional.Disabled ∧ em.pdoc.dbcsCodePage = CpUtf8)) ∧
    (em.pdoc.dbcsCodePage ≠ CpUtf8 → em.BidirectionalEnabled = false) := by
  constructor
  · unfold EditModel.BidirectionalEnabled
    simp only [Bool.and_eq_true, decide_eq_true_eq]
    constructor
    · rintro ⟨h1, h2⟩
      exact ⟨h1, h2.symm⟩
    · rintro ⟨h1, h2⟩
      exact ⟨h1, h2.symm⟩
  · intro hne
    unfold EditModel.BidirectionalEnabled
    have : decide (CpUtf8 = em.pdoc.dbcsCodePage) = false := by
      rw [decide_eq_false_iff_not]
      exact fun hcc => hne hcc.symm
    rw [this, Bool.and_false]

/-- C9 witness: a Shift-JIS (code page 932) document disables bidirectional
mode even though R2L was requested. -/
theorem bidirectionalEnabled_iff_witness :
    emBidiNonUtf8.BidirectionalEnabled = false :=
  (bidirectionalEnabled_iff emBidiNonUtf8).2 (by decide)

/-! ## C10 — ForgetSelectionForUndo blocks all commits -/

/-- Helper: while the transient index is the `-1` sentinel, any sequence of
`RememberSelectionOntoStack` calls leaves the state fixed. -/
theorem applyOntoStackCalls_no_pending (calls : List (Int × Int)) :
    ∀ st : ModelState, st.historyForUndo.indexCurrent = -1 →
      applyOntoStackCalls st calls = st := by
  induction calls with
  | nil => intro st _; rfl
  | cons c rest ih =>
      intro st h
      have hstep : st.RememberSelectionOntoStack c.1 c.2 = st := by
        unfold ModelState.RememberSelectionOntoStack
        rw [if_neg]
        rintro ⟨h1, _⟩
        rw [h] at h1
        omega
      show applyOntoStackCalls (st.RememberSelectionOntoStack c.1 c.2) rest = st
      rw [hstep]
      exact ih st h

/-- C10 (confirmed): after `ForgetSelectionForUndo` sets the `-1` sentinel,
every subsequent sequence of `RememberSelectionOntoStack` calls — for any
indices, including 0, which numerically equals sentinel + 1 — leaves the
whole state (in particular the undo stack) unchanged and the sentinel in
place; the sentinel never enables a commit. -/
theorem forgetSelection_blocks_commits (ms : ModelState) (calls : List (Int × Int)) :
    applyOntoStackCalls ms.ForgetSelectionForUndo calls = ms.ForgetSelectionForUndo ∧
    (applyOntoStackCalls ms.ForgetSelectionForUndo calls).historyForUndo.indexCurrent = -1 ∧
    (∀ k, (applyOntoStackCalls ms.ForgetSelectionForUndo calls).historyForUndo.stack k =
      ms.historyForUndo.stack k) := by
  have hfix : applyOntoStackCalls ms.ForgetSelectionForUndo calls = ms.ForgetSelectionForUndo :=
    applyOntoStackCalls_no_pending calls ms.ForgetSelectionForUndo rfl
  refine ⟨hfix, ?_, ?_⟩
  · rw [hfix]
    rfl
  · intro k
    rw [hfix]
    rfl

/-! ## C4 — FontSpecification strict weak ordering -/

/-- C4 (amended): the source order on `FontSpecification` compares name,
weight, italic flag — with non-italic sorting before italic — then size,
stretch, character set, quality flag and monospace-check flag, in that
precedence (it coincides with the three-way lexicographic comparison
`specCmp`); it is a strict weak ordering: for every pair exactly one of
less-than, equal, greater-than holds, and less-than is transitive. -/
theorem fontSpecification_order_strict_weak (a b c : FontSpecification) :
    (FontSpecification.lt a b = true ↔ FontSpecification.specCmp a b = Ordering.lt) ∧
    ((FontSpecification.lt a b = true ∧ FontSpecification.beq a b = false ∧
        FontSpecification.lt b a = false) ∨
      (FontSpecification.lt a b = false ∧ FontSpecification.beq a b = true ∧
        FontSpecification.lt b a = false) ∨
      (FontSpecification.lt a b = false ∧ FontSpecification.beq a b = false ∧
        FontSpecification.lt b a = true)) ∧
    (FontSpecification.lt a b = true → FontSpecification.lt b c = true →
      FontSpecification.lt a c = true) := by
  refine ⟨fslt_iff_specCmp a b, fslt_trichotomy a b, ?_⟩
  intro hab hbc
  exact (fslt_iff_specCmp a c).mpr
    (specCmp_trans ((fslt_iff_specCmp a b).mp hab) ((fslt_iff_specCmp b c).mp hbc))

/-- C4 counterexample: two specifications differing only in the italic flag:
the non-italic one sorts before the italic one, not after it as the claim
states. -/
theorem fontSpecification_italic_direction_counterexample :
    FontSpecification.lt fsItalic fsNonItalic = false ∧
      FontSpecification.lt fsNonItalic fsItalic = true := by
  decide

/-- C4 witness: transitivity applied through sizes 800 < 900 < 1000. -/
theorem fontSpecification_order_strict_weak_witness :
    FontSpecification.lt fsSizeSmall fsNonItalic = true :=
  (fontSpecification_order_strict_weak fsSizeSmall fsSizeMid fsNonItalic).2.2
    (by decide) (by decide)

end Hyperion
